import Mathlib

/-!
Verification of the a3t asset loader core.

Shallow embedding of the JavaScript sources:
  - src/context.js   : global context, cache-key serialization, query hierarchy
  - src/cache.js     : forever cache (a JS Map from cache-key strings to entries)
  - src/resolver.js  : resolveAsset (DB tier, FS tier, default, not-found, catch)
  - src/db-backend.js: queryDatabase loop with per-query error swallowing
  - src/fs-backend.js: NodeFsBackend.readAsset / readBinaryAsset path safety
  - src/git-backend.js: GitFsBackend path derivation, credentials, reads

Modelling conventions:
  - JS strings are Lean `String`; JS `null` for an optional string field is
    `Option.none`.  A JS value that may be `null`/`undefined` and is only
    tested with `!== null && !== undefined` is `Option α` with `none` for
    both nullish forms.
  - Asset values are an arbitrary type `α` (the resolver treats them
    opaquely).
  - Async backend calls that may throw are modelled as `Except Unit`
    results supplied as explicit behaviours; the resolver and the read
    functions are total Lean functions, mirroring the source's guarantee
    that they return normally for every backend behaviour.
  - Machine integers: the nonce is a JS number used as an integer counter;
    it is modelled as `Int` (no overflow concerns at these magnitudes).
-/

namespace A3t

/-! ### Context model (src/context.js)

`Ctx` is the global/effective context.  The source initializes
`language`, `workspace`, `system` to `null`, `buildHash` to a string and
`nonce` to an integer; `user` is the representative caller-defined
extension field (used by the Git backend's per-user scoping). -/

structure Ctx where
  language : Option String
  workspace : Option String
  system : Option String
  buildHash : String
  nonce : Int
  user : Option String
deriving DecidableEq

/-- A partial context (the argument of `setA3tContext` / a per-request
`contextOverride`).  `none` means the property is absent from the JS
object, so the spread `{...global, ...override}` keeps the global value. -/
structure CtxPatch where
  language : Option (Option String)
  workspace : Option (Option String)
  system : Option (Option String)
  buildHash : Option String
  nonce : Option Int
  user : Option (Option String)
deriving DecidableEq

def emptyPatch : CtxPatch := ⟨none, none, none, none, none, none⟩

/-- `setA3tContext` / the effective-context merge `{...globalContext, ...contextOverride}`:
fields present in the patch win, all others keep the global value. -/
def setA3tContext (g : Ctx) (p : CtxPatch) : Ctx :=
  { language := p.language.getD g.language
    workspace := p.workspace.getD g.workspace
    system := p.system.getD g.system
    buildHash := p.buildHash.getD g.buildHash
    nonce := p.nonce.getD g.nonce
    user := p.user.getD g.user }

def patchOfCtx (c : Ctx) : CtxPatch :=
  ⟨some c.language, some c.workspace, some c.system, some c.buildHash, some c.nonce, some c.user⟩

/-- JS truthiness of an optional string: `null`/`undefined` and the empty
string are falsy, every other string is truthy. -/
def truthy : Option String → Bool
  | none => false
  | some s => s != ""

/-! ### JSON serialization of the cache key (JSON.stringify in getCacheKey)

`JSON.stringify` escapes `"` and `\` inside string values (control
characters are also escaped by the real function; they are left as-is
here, which, like the real escaping, keeps the encoding injective and is
the only property the development relies on). -/

def escChar (c : Char) : List Char :=
  if c = '"' then ['\\', '"']
  else if c = '\\' then ['\\', '\\']
  else [c]

def escBody : List Char → List Char
  | [] => []
  | c :: rest => escChar c ++ escBody rest

/-- A JSON string literal: opening quote, escaped body, closing quote. -/
def jsonStr (s : String) : List Char :=
  '"' :: (escBody s.data ++ ['"'])

/-- Serialization of a nullable string field value. -/
def jsonOptStr : Option String → List Char
  | none => ['n', 'u', 'l', 'l']
  | some s => jsonStr s

def digitChar : Nat → Char
  | 0 => '0'
  | 1 => '1'
  | 2 => '2'
  | 3 => '3'
  | 4 => '4'
  | 5 => '5'
  | 6 => '6'
  | 7 => '7'
  | 8 => '8'
  | 9 => '9'
  | _ => '*'

/-- Decimal digits, fuel-based so that the definition is structurally
recursive (any fuel above the number itself gives the digits). -/
def natCharsAux : Nat → Nat → List Char
  | 0, _ => []
  | fuel + 1, n =>
    if n < 10 then [digitChar n]
    else natCharsAux fuel (n / 10) ++ [digitChar (n % 10)]

/-- Decimal digits of a natural number, most significant first. -/
def natChars (n : Nat) : List Char := natCharsAux (n + 1) n

/-- Decimal rendering of a JS integer (`JSON.stringify` on a number). -/
def jsonInt (n : Int) : List Char :=
  if n < 0 then '-' :: natChars (-n).toNat else natChars n.toNat

/-- Character content of
`JSON.stringify({key, language, workspace, system, buildHash, nonce})`,
with the object-literal field order of the source. -/
def cacheKeyChars (key : String) (c : Ctx) : List Char :=
  "\x7b\"key\":".data ++ jsonStr key
  ++ ",\"language\":".data ++ jsonOptStr c.language
  ++ ",\"workspace\":".data ++ jsonOptStr c.workspace
  ++ ",\"system\":".data ++ jsonOptStr c.system
  ++ ",\"buildHash\":".data ++ jsonStr c.buildHash
  ++ ",\"nonce\":".data ++ jsonInt c.nonce
  ++ ['\x7d']

/-- `getCacheKey(key, contextOverride)`: merge the override into the
global context and serialize the six cache-relevant fields. -/
def getCacheKey (key : String) (g : Ctx) (ov : CtxPatch) : String :=
  String.mk (cacheKeyChars key (setA3tContext g ov))

/-! ### Override query hierarchy (getDbQueryHierarchy) -/

/-- A database override query: a subset of `{workspace, language, system}`
(absent fields are `none`, i.e. omitted from the JS query object) plus the
asset key. -/
structure Query where
  workspace : Option String
  language : Option String
  system : Option String
  key : String
deriving DecidableEq

/-- `getDbQueryHierarchy(key, contextOverride)`: the ordered query list.
Each `if` mirrors a truthiness test (`if (workspace && language)` etc.)
and a `queries.push` of the source; the final global query is
unconditional. -/
def getDbQueryHierarchy (key : String) (g : Ctx) (ov : CtxPatch) : List Query :=
  let c := setA3tContext g ov
  (if truthy c.workspace && truthy c.language then [⟨c.workspace, c.language, none, key⟩] else [])
  ++ (if truthy c.workspace then [⟨c.workspace, none, none, key⟩] else [])
  ++ (if truthy c.language then [⟨none, c.language, none, key⟩] else [])
  ++ (if truthy c.system then [⟨none, none, c.system, key⟩] else [])
  ++ [⟨none, none, none, key⟩]

/-! ### Forever cache (src/cache.js) -/

/-- A cache entry `{found, value}` as stored by `setCached`. -/
structure CEntry (α : Type) where
  found : Bool
  value : Option α
deriving DecidableEq

/-- The JS `Map` keyed by cache-key strings, as an association list with
at most one entry per key (`setCached` replaces in place). -/
abbrev Cache (α : Type) := List (String × CEntry α)

def getCached (cache : Cache α) (cacheKey : String) : Option (CEntry α) :=
  List.lookup cacheKey cache

/-- `Map.set`: replace the existing entry for the key or append a new one. -/
def setCached (cache : Cache α) (cacheKey : String) (found : Bool) (value : Option α) : Cache α :=
  match cache with
  | [] => [(cacheKey, ⟨found, value⟩)]
  | e :: rest =>
    if e.1 = cacheKey then (cacheKey, ⟨found, value⟩) :: rest
    else e :: setCached rest cacheKey found value

def clearCache : Cache α := []

structure CacheStats where
  size : Nat
  keys : List String
deriving DecidableEq

def getCacheStats (cache : Cache α) : CacheStats :=
  ⟨cache.length, cache.map (fun e => e.1)⟩

/-! ### Resolution engine (src/resolver.js)

`resolveAsset` is modelled with the two awaited backend results supplied
as explicit behaviours: `dbStep` is the observed outcome of
`await queryDatabase(dbQueries)` and `fsStep` of
`await readFromFilesystem(key, binary)`; `.error` is a thrown exception,
`.ok none` a nullish result.  The `try`/`catch` of the source treats
these calls opaquely, so this captures exactly the control flow the
resolver performs; the function is total, mirroring that resolution never
raises. -/

/-- The shared tail of step 3 (inline default), step 4 (not-found) and the
top-level `catch` of `resolveAsset`: use the default if it is not
`undefined`, else record a miss. -/
def defaultOrMiss (cache : Cache α) (cacheKey : String) (defaultValue : Option α) :
    Option α × Cache α :=
  match defaultValue with
  | some d => (some d, setCached cache cacheKey true (some d))
  | none => (none, setCached cache cacheKey false none)

/-- `resolveAsset(key, defaultValue, contextOverride, binary)`; returns the
resolved value (`none` = `undefined`) and the updated cache. -/
def resolveAsset (g : Ctx) (cache : Cache α) (key : String) (defaultValue : Option α)
    (ov : CtxPatch) (dbStep fsStep : Except Unit (Option α)) : Option α × Cache α :=
  let cacheKey := getCacheKey key g ov
  match getCached cache cacheKey with
  | some cached => (if cached.found then cached.value else defaultValue, cache)
  | none =>
    match dbStep with
    | .error _ => defaultOrMiss cache cacheKey defaultValue
    | .ok dbResult =>
      match dbResult with
      | some v => (some v, setCached cache cacheKey true (some v))
      | none =>
        match fsStep with
        | .error _ => defaultOrMiss cache cacheKey defaultValue
        | .ok (some v) => (some v, setCached cache cacheKey true (some v))
        | .ok none => defaultOrMiss cache cacheKey defaultValue

/-! ### Database probing (src/db-backend.js) -/

/-- The `for (const query of queries)` loop of `queryDatabase`: the first
non-nullish `findAsset` result wins; a nullish result or a thrown error
moves on to the next query; an exhausted list yields `null`. -/
def queryLoop (findAsset : Query → Except Unit (Option α)) : List Query → Option α
  | [] => none
  | q :: rest =>
    match findAsset q with
    | .ok (some v) => some v
    | .ok none => queryLoop findAsset rest
    | .error _ => queryLoop findAsset rest

/-- `queryDatabase(queries)`: `null` when no backend is configured, else
the probing loop. -/
def queryDatabase (backend : Option (Query → Except Unit (Option α))) (queries : List Query) :
    Option α :=
  match backend with
  | none => none
  | some findAsset => queryLoop findAsset queries

/-- Instrumented probing loop: same result as `queryLoop`, plus the list
of queries actually probed, in order. -/
def queryTrace (findAsset : Query → Except Unit (Option α)) : List Query → Option α × List Query
  | [] => (none, [])
  | q :: rest =>
    match findAsset q with
    | .ok (some v) => (some v, [q])
    | .ok none => ((queryTrace findAsset rest).1, q :: (queryTrace findAsset rest).2)
    | .error _ => ((queryTrace findAsset rest).1, q :: (queryTrace findAsset rest).2)

/-! ### Global module state and incrementNonce (src/index.js) -/

structure A3tState (α : Type) where
  ctx : Ctx
  cache : Cache α

def getA3tContext (st : A3tState α) : Ctx := st.ctx

/-- `incrementNonce()`: read a copy of the global context, bump the nonce,
write the whole copy back via `setA3tContext`, clear the cache, and
return the new nonce. -/
def incrementNonce (st : A3tState α) : Int × A3tState α :=
  let context := getA3tContext st
  let newNonce := context.nonce + 1
  let st1 : A3tState α :=
    { ctx := setA3tContext st.ctx (patchOfCtx { context with nonce := newNonce })
      cache := st.cache }
  let st2 : A3tState α := { ctx := st1.ctx, cache := clearCache }
  (newNonce, st2)

/-! ### Filesystem path model (Node `path` on a POSIX system)

Paths are handled as segment lists.  `splitPath` is `String.splitOn "/"`;
`normAbs` is the normalization `path.resolve` performs on an absolute
path (`.`/empty segments dropped, `..` pops, `..` above the root
vanishes); `resolveAbs cwd p` is `path.resolve(p)` for a relative `p`
under current directory `/cwd`.  `path.join(root, key)` concatenates the
segments; its own `.`/`..` normalization is omitted because the
subsequent `path.resolve` performs the identical normalization on the
concatenation.  `renderAbs` prints the absolute path string, on which the
source's textual `startsWith(root + path.sep)` check operates. -/

def splitChars : List Char → List Char → List String
  | acc, [] => [String.mk acc.reverse]
  | acc, c :: rest =>
    if c = '/' then String.mk acc.reverse :: splitChars [] rest
    else splitChars (c :: acc) rest

def splitPath (s : String) : List String := splitChars [] s.data

def normAbs : List String → List String → List String
  | acc, [] => acc.reverse
  | acc, seg :: rest =>
    if seg = "" ∨ seg = "." then normAbs acc rest
    else if seg = ".." then
      match acc with
      | [] => normAbs [] rest
      | _ :: acc2 => normAbs acc2 rest
    else normAbs (seg :: acc) rest

def resolveAbs (cwd : List String) (p : List String) : List String :=
  normAbs [] (cwd ++ p)

def joinSegs : List String → List Char
  | [] => []
  | [s] => s.data
  | s :: rest => s.data ++ '/' :: joinSegs rest

def renderAbs (segs : List String) : List Char :=
  '/' :: joinSegs segs

/-- The security check of `readAsset`/`readBinaryAsset`:
`resolvedPath.startsWith(resolvedRoot + path.sep) || resolvedPath === resolvedRoot`. -/
def insideRootCheck (root p : List String) : Bool :=
  (renderAbs root ++ ['/']).isPrefixOf (renderAbs p) || renderAbs p == renderAbs root

/-! ### NodeFsBackend (src/fs-backend.js)

`fileRead` is the behaviour of `fs.readFile` on the resolved target;
`.error` covers both `ENOENT` and any other I/O error, since both are
caught and turned into `null` (they differ only in logging).  A failed
security check throws inside the `try` and is likewise caught, yielding
`null`. -/

def nodeReadAsset (rootPath : String) (cwd : List String)
    (fileRead : List String → Except Unit α) (key : String) : Option α :=
  let fullPath := splitPath rootPath ++ splitPath key
  let resolvedPath := resolveAbs cwd fullPath
  let resolvedRoot := resolveAbs cwd (splitPath rootPath)
  if insideRootCheck resolvedRoot resolvedPath then
    match fileRead resolvedPath with
    | .ok content => some content
    | .error _ => none
  else none

def nodeReadBinaryAsset (rootPath : String) (cwd : List String)
    (fileRead : List String → Except Unit α) (key : String) : Option α :=
  let fullPath := splitPath rootPath ++ splitPath key
  let resolvedPath := resolveAbs cwd fullPath
  let resolvedRoot := resolveAbs cwd (splitPath rootPath)
  if insideRootCheck resolvedRoot resolvedPath then
    match fileRead resolvedPath with
    | .ok buffer => some buffer
    | .error _ => none
  else none

/-! ### GitFsBackend (src/git-backend.js) -/

structure GitCredentials where
  username : Option String
  password : Option String
  token : Option String
deriving DecidableEq

/-- The post-constructor configuration of `GitFsBackend` (defaults such as
`scope || 'workspace'` and `cachePath || '.a3t-git-cache'` already
applied; the fetch scheduling fields play no role in the claims and are
omitted). -/
structure GitConfig where
  repoUrl : String
  branch : String
  tag : Option String
  commit : Option String
  cachePath : String
  scope : String
  credentials : GitCredentials
deriving DecidableEq

def allowedRepoChar (c : Char) : Bool :=
  ('a' ≤ c && c ≤ 'z') || ('A' ≤ c && c ≤ 'Z') || ('0' ≤ c && c ≤ '9') || c == '-' || c == '_'

/-- The second replace step of `getLocalRepoPath`'s name sanitization:
collapse each maximal run of dashes to a single dash. -/
def collapseDashes : List Char → List Char
  | [] => []
  | c :: rest =>
    let t := collapseDashes rest
    if c = '-' ∧ t.head? = some '-' then t else c :: t

/-- One leading-dash removal (half of the final trim step, whose regex
removes one dash anchored at the start and one anchored at the end). -/
def dropLeadDash : List Char → List Char
  | '-' :: rest => rest
  | s => s

/-- The safe directory name derived from the repository URL: each
character outside the class `a-z A-Z 0-9 - _` is replaced by a dash,
dash runs collapse to one dash, and one leading and one trailing dash
are stripped (the three chained replace calls of the source). -/
def sanitizeRepoName (url : String) : String :=
  let replaced := url.data.map (fun c => if allowedRepoChar c then c else '-')
  let collapsed := collapseDashes replaced
  String.mk ((dropLeadDash (dropLeadDash collapsed).reverse).reverse)

/-- JS `a || b` for an optional string `a`: falsy (`null` or empty) falls
back to the default. -/
def jsOr (v : Option String) (d : String) : String :=
  match v with
  | some s => if s = "" then d else s
  | none => d

/-- `getLocalRepoPath()`:
`path.join(cachePath, scope, scopeId, repoName)` where `scopeId` is
`context.user || 'default-user'` under `scope === 'user'` and
`context.workspace || 'default-workspace'` otherwise.  `path.join` on
these plain components is string concatenation with separators. -/
def getLocalRepoPath (cfg : GitConfig) (ctx : Ctx) : String :=
  let scopeId := if cfg.scope = "user" then jsOr ctx.user "default-user"
                 else jsOr ctx.workspace "default-workspace"
  cfg.cachePath ++ "/" ++ cfg.scope ++ "/" ++ scopeId ++ "/" ++ sanitizeRepoName cfg.repoUrl

/-- The sanitized URL form used in secret-store keys: every character
outside `a-z A-Z 0-9` becomes an underscore (note the class here is
narrower than the one in `sanitizeRepoName`). -/
def secretRepoKey (url : String) : String :=
  String.mk (url.data.map (fun c =>
    if ('a' ≤ c && c ≤ 'z') || ('A' ≤ c && c ≤ 'Z') || ('0' ≤ c && c ≤ '9') then c else '_'))

structure AuthOptions where
  username : Option String
  password : Option String
  token : Option String
deriving DecidableEq

/-- `if (v) auth.field = v`: assign only a truthy value, else keep the
current field. -/
def jsAssignIf (cur newVal : Option String) : Option String :=
  if truthy newVal then newVal else cur

/-- `getAuthOptions()`: start from `{}`, copy each truthy static
credential, then overwrite each field with the secret-store lookup when
that lookup is truthy.  `getSecret` is the secret-store behaviour
(`null` = not found; the store itself never throws). -/
def getAuthOptions (cfg : GitConfig) (getSecret : String → Option String) : AuthOptions :=
  let u1 := jsAssignIf none cfg.credentials.username
  let p1 := jsAssignIf none cfg.credentials.password
  let t1 := jsAssignIf none cfg.credentials.token
  let rk := secretRepoKey cfg.repoUrl
  { username := jsAssignIf u1 (getSecret ("git_username_" ++ rk))
    password := jsAssignIf p1 (getSecret ("git_password_" ++ rk))
    token := jsAssignIf t1 (getSecret ("git_token_" ++ rk)) }

/-- `GitFsBackend.readAsset(key)`: `ensureRepository()` may throw (modelled
as `.error`, caught to `null`); on success its repository path is the
root for the same resolve-and-check logic as the plain backend. -/
def gitReadAsset (ensureRepo : Except Unit String) (cwd : List String)
    (fileRead : List String → Except Unit α) (key : String) : Option α :=
  match ensureRepo with
  | .error _ => none
  | .ok repoPath =>
    let assetPath := splitPath repoPath ++ splitPath key
    let resolvedPath := resolveAbs cwd assetPath
    let resolvedRepo := resolveAbs cwd (splitPath repoPath)
    if insideRootCheck resolvedRepo resolvedPath then
      match fileRead resolvedPath with
      | .ok content => some content
      | .error _ => none
    else none

def gitReadBinaryAsset (ensureRepo : Except Unit String) (cwd : List String)
    (fileRead : List String → Except Unit α) (key : String) : Option α :=
  match ensureRepo with
  | .error _ => none
  | .ok repoPath =>
    let assetPath := splitPath repoPath ++ splitPath key
    let resolvedPath := resolveAbs cwd assetPath
    let resolvedRepo := resolveAbs cwd (splitPath repoPath)
    if insideRootCheck resolvedRepo resolvedPath then
      match fileRead resolvedPath with
      | .ok buffer => some buffer
      | .error _ => none
    else none

/-! ### Auxiliary definitions for the proofs and concrete fixtures -/

/-- Decoder for the escaped body of a JSON string literal: returns the
unescaped content up to the closing quote together with the remainder. -/
def unescape : List Char → Option (List Char × List Char)
  | [] => none
  | c :: r =>
    if c = '"' then some ([], r)
    else if c = '\\' then
      match r with
      | [] => none
      | d :: r2 => (unescape r2).map (fun p => (d :: p.1, p.2))
    else (unescape r).map (fun p => (c :: p.1, p.2))

/-- A probe outcome that does not stop the query loop: a thrown error or a
nullish result. -/
def noHit (r : Except Unit (Option α)) : Prop := r = .error () ∨ r = .ok none

/-- The initial global context of the module (no language, workspace,
system or user; placeholder build hash; nonce 0). -/
def defaultCtx : Ctx := ⟨none, none, none, "default", 0, none⟩

def fullCtx : Ctx := ⟨some "en", some "ws1", some "sys1", "default", 0, none⟩

def langOnlyCtx : Ctx := ⟨some "en", none, none, "default", 0, none⟩

def langEsCtx : Ctx := ⟨some "es", none, none, "default", 0, none⟩

def aliceCtx : Ctx := ⟨none, none, none, "default", 0, some "alice"⟩

def bobCtx : Ctx := ⟨none, none, none, "default", 0, some "bob"⟩

def demoGitConfig : GitConfig :=
  ⟨"https://g.com/r.git", "main", none, none, ".a3t-git-cache", "user",
   ⟨some "alice", none, none⟩⟩

/-- A secret store holding the empty string as the username secret for
`demoGitConfig`'s repository, and nothing else. -/
def demoSecrets : String → Option String :=
  fun k => if k = "git_username_https___g_com_r_git" then some "" else none

def wsQuery : Query := ⟨some "ws1", none, none, "k"⟩

def langQuery : Query := ⟨none, some "en", none, "k"⟩

/-- A backend that throws on the workspace-specific query, answers the
language query, and is silent otherwise. -/
def demoFind : Query → Except Unit (Option String) := fun q =>
  if q.workspace = some "ws1" then .error ()
  else if q.language = some "en" then .ok (some "override")
  else .ok none

/-! ## Helper lemmas -/

theorem setA3tContext_empty (g : Ctx) : setA3tContext g emptyPatch = g := rfl

theorem str_ext {s t : String} (h : s.data = t.data) : s = t := by
  cases s; cases t; exact congrArg String.mk h

theorem str_append_assoc (a b c : String) : a ++ b ++ c = a ++ (b ++ c) := by
  apply str_ext
  simp [String.data_append, List.append_assoc]

theorem getCached_setCached_self (cache : Cache α) (k : String) (f : Bool) (v : Option α) :
    getCached (setCached cache k f v) k = some ⟨f, v⟩ := by
  induction cache with
  | nil => simp [setCached, getCached, List.lookup]
  | cons e rest ih =>
    rcases e with ⟨ek, ev⟩
    by_cases he : ek = k
    · subst he
      simp [setCached, getCached, List.lookup]
    · have hne : (k == ek) = false := beq_eq_false_iff_ne.mpr (fun hh => he hh.symm)
      simp only [setCached, he, if_false, getCached, List.lookup, hne]
      simpa [getCached] using ih

theorem unescape_quote (r : List Char) : unescape ('"' :: r) = some ([], r) := by
  unfold unescape
  rw [if_pos rfl]

theorem unescape_esc (d : Char) (r2 : List Char) :
    unescape ('\\' :: d :: r2) = (unescape r2).map (fun p => (d :: p.1, p.2)) := by
  conv_lhs => unfold unescape
  rw [if_neg (by decide : ¬('\\' : Char) = '"'), if_pos rfl]

theorem unescape_other {c : Char} (hq : c ≠ '"') (hb : c ≠ '\\') (r : List Char) :
    unescape (c :: r) = (unescape r).map (fun p => (c :: p.1, p.2)) := by
  conv_lhs => unfold unescape
  rw [if_neg hq, if_neg hb]

theorem unescape_escBody (s r : List Char) :
    unescape (escBody s ++ ('"' :: r)) = some (s, r) := by
  induction s with
  | nil =>
    rw [escBody, List.nil_append, unescape_quote]
  | cons a t ih =>
    by_cases ha : a = '"'
    · subst ha
      simp +decide only [escBody, escChar, if_pos, List.cons_append, List.append_assoc,
        List.nil_append]
      rw [unescape_esc, ih]
      rfl
    · by_cases hb : a = '\\'
      · subst hb
        simp +decide only [escBody, escChar, if_neg, if_pos, List.cons_append, List.append_assoc,
          List.nil_append]
        rw [unescape_esc, ih]
        rfl
      · simp only [escBody, escChar, if_neg ha, if_neg hb, List.cons_append, List.singleton_append,
          List.nil_append]
        rw [unescape_other ha hb, ih]
        rfl

theorem jsonStr_append_inj {s1 s2 : String} {r1 r2 : List Char}
    (h : jsonStr s1 ++ r1 = jsonStr s2 ++ r2) : s1 = s2 ∧ r1 = r2 := by
  have h2 : escBody s1.data ++ ('"' :: r1) = escBody s2.data ++ ('"' :: r2) := by
    simpa [jsonStr, List.append_assoc] using h
  have h3 := congrArg unescape h2
  rw [unescape_escBody, unescape_escBody] at h3
  obtain ⟨hdata, hr⟩ := by simpa using h3
  exact ⟨str_ext hdata, hr⟩

theorem jsonOptStr_append_inj {v1 v2 : Option String} {r1 r2 : List Char}
    (h : jsonOptStr v1 ++ r1 = jsonOptStr v2 ++ r2) : v1 = v2 ∧ r1 = r2 := by
  match v1, v2 with
  | none, none => simpa [jsonOptStr] using h
  | none, some s2 => simp [jsonOptStr, jsonStr] at h
  | some s1, none => simp [jsonOptStr, jsonStr] at h
  | some s1, some s2 =>
    obtain ⟨hs, hr⟩ := jsonStr_append_inj (by simpa [jsonOptStr] using h)
    exact ⟨by rw [hs], hr⟩

theorem natCharsAux_indep (f1 : Nat) : ∀ (f2 n : Nat), n < f1 → n < f2 →
    natCharsAux f1 n = natCharsAux f2 n := by
  induction f1 with
  | zero =>
    intro f2 n h1 h2
    omega
  | succ f ih =>
    intro f2 n h1 h2
    cases f2 with
    | zero => omega
    | succ g =>
      simp only [natCharsAux]
      by_cases h10 : n < 10
      · rw [if_pos h10, if_pos h10]
      · rw [if_neg h10, if_neg h10]
        have hd : n / 10 < n := Nat.div_lt_self (by omega) (by decide)
        rw [ih g (n / 10) (by omega) (by omega)]

theorem natChars_eq (n : Nat) : natChars n =
    if n < 10 then [digitChar n] else natChars (n / 10) ++ [digitChar (n % 10)] := by
  show natCharsAux (n + 1) n = _
  rw [natCharsAux]
  by_cases h10 : n < 10
  · rw [if_pos h10, if_pos h10]
  · rw [if_neg h10, if_neg h10]
    show natCharsAux n (n / 10) ++ _ = natCharsAux (n / 10 + 1) (n / 10) ++ _
    have hd : n / 10 < n := Nat.div_lt_self (by omega) (by decide)
    rw [natCharsAux_indep n (n / 10 + 1) (n / 10) (by omega) (by omega)]

theorem natChars_ne_nil (n : Nat) : natChars n ≠ [] := by
  rw [natChars_eq]
  split
  · simp
  · simp

theorem digitChar_toNat {d : Nat} (h : d < 10) : (digitChar d).toNat = 48 + d := by
  interval_cases d <;> rfl

theorem digitChar_lt_inj {d e : Nat} (hd : d < 10) (he : e < 10)
    (h : digitChar d = digitChar e) : d = e := by
  have := congrArg Char.toNat h
  rw [digitChar_toNat hd, digitChar_toNat he] at this
  omega

theorem digitChar_ne_dash (d : Nat) : digitChar d ≠ '-' := by
  by_cases h : d < 10
  · interval_cases d <;> decide
  · intro hc
    have h2 : digitChar d = '*' := by
      unfold digitChar
      split
      · omega
      · omega
      · omega
      · omega
      · omega
      · omega
      · omega
      · omega
      · omega
      · omega
      · rfl
    rw [h2] at hc
    exact absurd hc (by decide)

theorem natChars_not_dash_head (n : Nat) (r : List Char) : natChars n ≠ '-' :: r := by
  induction n using Nat.strong_induction_on generalizing r with
  | _ n ih =>
    rw [natChars_eq]
    split
    · intro h
      rw [List.cons.injEq] at h
      exact digitChar_ne_dash n h.1
    · intro h
      rcases hA : natChars (n / 10) with _ | ⟨c, t⟩
      · exact natChars_ne_nil _ hA
      · rw [hA] at h
        rw [List.cons_append, List.cons.injEq] at h
        exact ih (n / 10) (Nat.div_lt_self (by omega) (by decide)) t (by rw [hA, h.1])

theorem natChars_inj {n m : Nat} (h : natChars n = natChars m) : n = m := by
  induction n using Nat.strong_induction_on generalizing m with
  | _ n ih =>
    rw [natChars_eq n, natChars_eq m] at h
    by_cases h1 : n < 10 <;> by_cases h2 : m < 10
    · rw [if_pos h1, if_pos h2] at h
      exact digitChar_lt_inj h1 h2 (by simpa using h)
    · rw [if_pos h1, if_neg h2] at h
      have hlen := congrArg List.length h
      rcases hA : natChars (m / 10) with _ | ⟨c, t⟩
      · exact absurd hA (natChars_ne_nil _)
      · rw [hA] at hlen
        simp at hlen
    · rw [if_neg h1, if_pos h2] at h
      have hlen := congrArg List.length h
      rcases hA : natChars (n / 10) with _ | ⟨c, t⟩
      · exact absurd hA (natChars_ne_nil _)
      · rw [hA] at hlen
        simp at hlen
    · rw [if_neg h1, if_neg h2] at h
      have hrev := congrArg List.reverse h
      simp only [List.reverse_append, List.reverse_singleton, List.singleton_append,
        List.cons.injEq] at hrev
      have hmod : n % 10 = m % 10 :=
        digitChar_lt_inj (Nat.mod_lt _ (by omega)) (Nat.mod_lt _ (by omega)) hrev.1
      have hdiv : n / 10 = m / 10 :=
        ih (n / 10) (Nat.div_lt_self (by omega) (by decide))
          (List.reverse_injective hrev.2)
      omega

theorem jsonInt_inj {a b : Int} (h : jsonInt a = jsonInt b) : a = b := by
  unfold jsonInt at h
  split at h <;> split at h
  · rename_i h1 h2
    rw [List.cons.injEq] at h
    have := natChars_inj h.2
    omega
  · rename_i h1 h2
    exact absurd h (natChars_not_dash_head _ _).symm
  · rename_i h1 h2
    exact absurd h.symm (natChars_not_dash_head _ _).symm
  · rename_i h1 h2
    have := natChars_inj h
    omega

theorem jsonInt_brace_inj {a b : Int} (h : jsonInt a ++ ['\x7d'] = jsonInt b ++ ['\x7d']) :
    a = b :=
  jsonInt_inj (List.append_cancel_right h)

/-- Injectivity of the cache-key serialization: for a fixed asset key,
equal serialized keys force equality of all five serialized context
fields. -/
theorem cacheKeyChars_inj {k : String} {c1 c2 : Ctx}
    (h : cacheKeyChars k c1 = cacheKeyChars k c2) :
    c1.language = c2.language ∧ c1.workspace = c2.workspace ∧ c1.system = c2.system ∧
      c1.buildHash = c2.buildHash ∧ c1.nonce = c2.nonce := by
  unfold cacheKeyChars at h
  simp only [List.append_assoc] at h
  replace h := List.append_cancel_left h
  replace h := List.append_cancel_left h
  replace h := List.append_cancel_left h
  obtain ⟨hlang, h⟩ := jsonOptStr_append_inj h
  replace h := List.append_cancel_left h
  obtain ⟨hws, h⟩ := jsonOptStr_append_inj h
  replace h := List.append_cancel_left h
  obtain ⟨hsys, h⟩ := jsonOptStr_append_inj h
  replace h := List.append_cancel_left h
  obtain ⟨hbh, h⟩ := jsonStr_append_inj h
  replace h := List.append_cancel_left h
  exact ⟨hlang, hws, hsys, hbh, jsonInt_brace_inj h⟩

/-! ## Claims -/

/-- C2: `getDbQueryHierarchy` emits, in this fixed order, the
workspace+language, workspace, language and system queries exactly when
the corresponding fields are set in the effective context, with absent
fields omitted (`none`) and the bare key query always last.  In
particular a full context yields exactly the five-query list and a
language-only context yields exactly the two-query list. -/
theorem claim_dbQueryHierarchy_order (k : String) (c : Ctx) :
    (∀ w l s, c.workspace = some w → w ≠ "" → c.language = some l → l ≠ "" →
        c.system = some s → s ≠ "" →
      getDbQueryHierarchy k c emptyPatch =
        [⟨some w, some l, none, k⟩, ⟨some w, none, none, k⟩, ⟨none, some l, none, k⟩,
         ⟨none, none, some s, k⟩, ⟨none, none, none, k⟩]) ∧
    (∀ l, c.language = some l → l ≠ "" → truthy c.workspace = false →
        truthy c.system = false →
      getDbQueryHierarchy k c emptyPatch =
        [⟨none, some l, none, k⟩, ⟨none, none, none, k⟩]) := by
  constructor
  · intro w l s hw hw0 hl hl0 hs hs0
    simp [getDbQueryHierarchy, setA3tContext_empty, hw, hl, hs, truthy, hw0, hl0, hs0]
  · intro l hl hl0 hw hs
    have hlt : truthy (some l) = true := by simp [truthy, hl0]
    simp [getDbQueryHierarchy, setA3tContext_empty, hl, hw, hs, hlt]

theorem claim_dbQueryHierarchy_order_witness :
    getDbQueryHierarchy "k" fullCtx emptyPatch =
      [⟨some "ws1", some "en", none, "k"⟩, ⟨some "ws1", none, none, "k"⟩,
       ⟨none, some "en", none, "k"⟩, ⟨none, none, some "sys1", "k"⟩,
       ⟨none, none, none, "k"⟩] ∧
    getDbQueryHierarchy "k" langOnlyCtx emptyPatch =
      [⟨none, some "en", none, "k"⟩, ⟨none, none, none, "k"⟩] :=
  ⟨(claim_dbQueryHierarchy_order "k" fullCtx).1 "ws1" "en" "sys1" rfl (by decide) rfl
      (by decide) rfl (by decide),
   (claim_dbQueryHierarchy_order "k" langOnlyCtx).2 "en" rfl (by decide) rfl rfl⟩

/-- C3: for every behaviour of the backend-probing steps, `resolveAsset`
is a total function (it never raises); when a step throws on a cache
miss, the result is the caller's default when that is not `undefined`
and the absent marker (`none`) otherwise. -/
theorem claim_resolveAsset_error_degrades {α : Type} (g : Ctx) (cache : Cache α) (key : String)
    (d : Option α) (ov : CtxPatch) (dbStep fsStep : Except Unit (Option α))
    (hmiss : getCached cache (getCacheKey key g ov) = none)
    (herr : dbStep = .error () ∨ (dbStep = .ok none ∧ fsStep = .error ())) :
    (resolveAsset g cache key d ov dbStep fsStep).1 = d := by
  rcases herr with he | ⟨hdb, hfs⟩
  · subst he
    cases d <;> simp [resolveAsset, hmiss, defaultOrMiss]
  · subst hdb
    subst hfs
    cases d <;> simp [resolveAsset, hmiss, defaultOrMiss]

theorem claim_resolveAsset_error_degrades_witness :
    (resolveAsset defaultCtx ([] : Cache String) "k" (some "d") emptyPatch
        (.error ()) (.ok none)).1 = some "d" :=
  claim_resolveAsset_error_degrades defaultCtx [] "k" (some "d") emptyPatch
    (.error ()) (.ok none) rfl (Or.inl rfl)

/-- C4: two effective contexts that differ in language, workspace, system,
buildHash or nonce always produce different cache keys for the same asset
key. -/
theorem claim_cacheKey_context_injective (k : String) (c1 c2 : Ctx)
    (hdiff : c1.language ≠ c2.language ∨ c1.workspace ≠ c2.workspace ∨
      c1.system ≠ c2.system ∨ c1.buildHash ≠ c2.buildHash ∨ c1.nonce ≠ c2.nonce) :
    getCacheKey k c1 emptyPatch ≠ getCacheKey k c2 emptyPatch := by
  intro h
  unfold getCacheKey at h
  rw [setA3tContext_empty, setA3tContext_empty] at h
  have h2 : cacheKeyChars k c1 = cacheKeyChars k c2 := congrArg String.data h
  obtain ⟨e1, e2, e3, e4, e5⟩ := cacheKeyChars_inj h2
  rcases hdiff with hd | hd | hd | hd | hd <;> exact hd (by assumption)

theorem claim_cacheKey_context_injective_witness :
    getCacheKey "k" langOnlyCtx emptyPatch ≠ getCacheKey "k" langEsCtx emptyPatch :=
  claim_cacheKey_context_injective "k" langOnlyCtx langEsCtx (Or.inl (by decide))

/-- C5: `incrementNonce` returns the previous nonce plus one, stores that
value as the new global nonce, and leaves the forever cache empty, so the
cache statistics report size zero afterwards. -/
theorem claim_incrementNonce (α : Type) (st : A3tState α) :
    (incrementNonce st).1 = (getA3tContext st).nonce + 1 ∧
    (getA3tContext (incrementNonce st).2).nonce = (getA3tContext st).nonce + 1 ∧
    (getCacheStats (incrementNonce st).2.cache).size = 0 :=
  ⟨rfl, rfl, rfl⟩

/-- C1 (counterexample): after a resolve of key "k" with default "a" on
which the database and filesystem tiers yield nothing, an identical
resolve with default "b" returns the cached "a", not its own default
"b" — the earlier call committed a found entry holding its default. -/
theorem claim_default_fresh_counterexample :
    (resolveAsset defaultCtx
        (resolveAsset defaultCtx ([] : Cache String) "k" (some "a") emptyPatch
          (.ok none) (.ok none)).2
        "k" (some "b") emptyPatch (.ok none) (.ok none)).1 = some "a" ∧
    some "a" ≠ (some "b" : Option String) :=
  ⟨rfl, by decide⟩

/-- C1 (amended): the default is evaluated fresh on every call only for a
cached not-found entry: when an earlier call ran with an undefined
default (committing a not-found entry), a later call with default `d2`
under the same effective context returns `d2`; but an earlier call that
resolved to its own non-undefined default caches that value as found,
and later calls return it regardless of their own default. -/
theorem claim_default_fresh_amended {α : Type} (g : Ctx) (cache : Cache α) (key : String)
    (ov : CtxPatch) (d2 : Option α) (db2 fs2 : Except Unit (Option α))
    (hmiss : getCached cache (getCacheKey key g ov) = none) :
    (resolveAsset g (resolveAsset g cache key none ov (.ok none) (.ok none)).2
        key d2 ov db2 fs2).1 = d2 := by
  have h1 : (resolveAsset g cache key none ov (.ok none) (.ok none)).2 =
      setCached cache (getCacheKey key g ov) false none := by
    simp [resolveAsset, hmiss, defaultOrMiss]
  rw [h1]
  simp [resolveAsset, getCached_setCached_self]

theorem claim_default_fresh_amended_witness :
    (resolveAsset defaultCtx
        (resolveAsset defaultCtx ([] : Cache String) "k" none emptyPatch
          (.ok none) (.ok none)).2
        "k" (some "b") emptyPatch (.ok none) (.ok none)).1 = some "b" :=
  claim_default_fresh_amended defaultCtx [] "k" emptyPatch (some "b")
    (.ok none) (.ok none) rfl

/-- C6: within one cache-miss resolution, the query loop probes the
hierarchy strictly in order: if every query of a prefix either throws or
answers nullish and the next query answers a value, that value is the
result, and exactly the prefix plus that query — no later query — is
probed.  Thrown probes are swallowed and probing continues. -/
theorem claim_queryDatabase_first_hit {α : Type} (findAsset : Query → Except Unit (Option α))
    (qs1 : List Query) (q : Query) (qs2 : List Query) (v : α)
    (hpre : ∀ q2 ∈ qs1, noHit (findAsset q2)) (hq : findAsset q = .ok (some v)) :
    queryDatabase (some findAsset) (qs1 ++ q :: qs2) = some v ∧
    (queryTrace findAsset (qs1 ++ q :: qs2)).2 = qs1 ++ [q] := by
  induction qs1 with
  | nil =>
    constructor
    · simp [queryDatabase, queryLoop, hq]
    · simp [queryTrace, hq]
  | cons a t ih =>
    have ha := hpre a (by simp)
    have hrest : ∀ q2 ∈ t, noHit (findAsset q2) := fun q2 hm => hpre q2 (by simp [hm])
    obtain ⟨ih1, ih2⟩ := ih hrest
    rcases ha with he | hn
    · refine ⟨?_, ?_⟩
      · simpa [queryDatabase, queryLoop, he] using ih1
      · simp [queryTrace, he, ih2]
    · refine ⟨?_, ?_⟩
      · simpa [queryDatabase, queryLoop, hn] using ih1
      · simp [queryTrace, hn, ih2]

theorem claim_queryDatabase_first_hit_witness :
    queryDatabase (some demoFind) ([wsQuery] ++ langQuery :: []) = some "override" ∧
    (queryTrace demoFind ([wsQuery] ++ langQuery :: [])).2 = [wsQuery] ++ [langQuery] :=
  claim_queryDatabase_first_hit demoFind [wsQuery] langQuery [] "override"
    (by
      intro q2 hm
      rw [List.mem_singleton] at hm
      subst hm
      exact Or.inl rfl)
    rfl

/-- C7: a key whose resolved path escapes the configured root (it is
neither the root itself nor strictly below it) makes the text and binary
reads of both the plain filesystem backend and the repository-backed
backend return `null`, for every behaviour of the underlying file read —
indistinguishable from an ordinary not-found. -/
theorem claim_path_traversal_not_found {α : Type} (rootPath repoPath key : String)
    (cwd : List String) (rd1 rd2 rd3 rd4 : List String → Except Unit α)
    (hesc : insideRootCheck (resolveAbs cwd (splitPath rootPath))
      (resolveAbs cwd (splitPath rootPath ++ splitPath key)) = false)
    (hescGit : insideRootCheck (resolveAbs cwd (splitPath repoPath))
      (resolveAbs cwd (splitPath repoPath ++ splitPath key)) = false) :
    nodeReadAsset rootPath cwd rd1 key = none ∧
    nodeReadBinaryAsset rootPath cwd rd2 key = none ∧
    gitReadAsset (.ok repoPath) cwd rd3 key = none ∧
    gitReadBinaryAsset (.ok repoPath) cwd rd4 key = none := by
  refine ⟨?_, ?_, ?_, ?_⟩ <;>
    simp [nodeReadAsset, nodeReadBinaryAsset, gitReadAsset, gitReadBinaryAsset, hesc, hescGit]

theorem claim_path_traversal_not_found_witness :
    nodeReadAsset "assets" ["app"] (fun _ => (.ok "secret" : Except Unit String))
      "../../etc/passwd" = none ∧
    nodeReadBinaryAsset "assets" ["app"] (fun _ => (.ok "secret" : Except Unit String))
      "../../etc/passwd" = none ∧
    gitReadAsset (.ok ".a3t-git-cache/user/alice/https-g-com-r-git") ["app"]
      (fun _ => (.ok "secret" : Except Unit String)) "../../etc/passwd" = none ∧
    gitReadBinaryAsset (.ok ".a3t-git-cache/user/alice/https-g-com-r-git") ["app"]
      (fun _ => (.ok "secret" : Except Unit String)) "../../etc/passwd" = none :=
  claim_path_traversal_not_found "assets" ".a3t-git-cache/user/alice/https-g-com-r-git"
    "../../etc/passwd" ["app"] _ _ _ _ (by decide) (by decide)

/-- C8: the local repository path is
`cachePath / scope / scopeId / sanitizedRepoName`, where the scope
identifier under scope "user" is the context's user field; contexts for
users "alice" and "bob" therefore yield different local paths, each
containing the respective identifier. -/
theorem claim_repo_path_scope_isolation (cfg : GitConfig) (cA cB : Ctx)
    (hscope : cfg.scope = "user") (ha : cA.user = some "alice") (hb : cB.user = some "bob") :
    getLocalRepoPath cfg cA =
      cfg.cachePath ++ "/" ++ cfg.scope ++ "/" ++ "alice" ++ "/" ++
        sanitizeRepoName cfg.repoUrl ∧
    getLocalRepoPath cfg cB =
      cfg.cachePath ++ "/" ++ cfg.scope ++ "/" ++ "bob" ++ "/" ++
        sanitizeRepoName cfg.repoUrl ∧
    getLocalRepoPath cfg cA ≠ getLocalRepoPath cfg cB ∧
    (∃ p q : String, getLocalRepoPath cfg cA = p ++ "alice" ++ q) ∧
    (∃ p q : String, getLocalRepoPath cfg cB = p ++ "bob" ++ q) := by
  have e1 : getLocalRepoPath cfg cA =
      cfg.cachePath ++ "/" ++ cfg.scope ++ "/" ++ "alice" ++ "/" ++
        sanitizeRepoName cfg.repoUrl := by
    simp +decide [getLocalRepoPath, hscope, ha, jsOr]
  have e2 : getLocalRepoPath cfg cB =
      cfg.cachePath ++ "/" ++ cfg.scope ++ "/" ++ "bob" ++ "/" ++
        sanitizeRepoName cfg.repoUrl := by
    simp +decide [getLocalRepoPath, hscope, hb, jsOr]
  refine ⟨e1, e2, ?_, ?_, ?_⟩
  · intro h
    rw [e1, e2] at h
    have hd := congrArg String.data h
    simp only [String.data_append, List.append_assoc] at hd
    replace hd := List.append_cancel_left hd
    replace hd := List.append_cancel_left hd
    replace hd := List.append_cancel_left hd
    replace hd := List.append_cancel_left hd
    simp only [List.cons_append, List.cons.injEq] at hd
    exact absurd hd.1 (by decide)
  · refine ⟨cfg.cachePath ++ "/" ++ cfg.scope ++ "/", "/" ++ sanitizeRepoName cfg.repoUrl, ?_⟩
    rw [e1]
    apply str_ext
    simp [String.data_append, List.append_assoc]
  · refine ⟨cfg.cachePath ++ "/" ++ cfg.scope ++ "/", "/" ++ sanitizeRepoName cfg.repoUrl, ?_⟩
    rw [e2]
    apply str_ext
    simp [String.data_append, List.append_assoc]

theorem claim_repo_path_scope_isolation_witness :
    getLocalRepoPath demoGitConfig aliceCtx = ".a3t-git-cache/user/alice/https-g-com-r-git" ∧
    getLocalRepoPath demoGitConfig bobCtx = ".a3t-git-cache/user/bob/https-g-com-r-git" ∧
    getLocalRepoPath demoGitConfig aliceCtx ≠ getLocalRepoPath demoGitConfig bobCtx :=
  ⟨by decide, by decide,
   (claim_repo_path_scope_isolation demoGitConfig aliceCtx bobCtx rfl rfl rfl).2.2.1⟩

/-- C9 (counterexample): a non-null secret-store value does not always take
precedence over the static configuration value: with static username
"alice" and the secret store answering the empty string (non-null) for
the username key of the repository, the assembled credentials keep
"alice". -/
theorem claim_auth_secret_counterexample :
    demoSecrets ("git_username_" ++ secretRepoKey demoGitConfig.repoUrl) = some "" ∧
    (getAuthOptions demoGitConfig demoSecrets).username = some "alice" ∧
    (getAuthOptions demoGitConfig demoSecrets).username ≠ some "" :=
  ⟨by decide, by decide, by decide⟩

/-- C9 (amended): for username, password and token independently, a
non-empty secret-store value (looked up under the key built from the
sanitized repository URL) takes precedence over the static configuration
value; when the secret store yields null or an empty string, the
non-empty static value is used, and a field with no truthy source is
left unset. -/
theorem claim_auth_secret_precedence (cfg : GitConfig) (getSecret : String → Option String) :
    (getAuthOptions cfg getSecret).username =
      (if truthy (getSecret ("git_username_" ++ secretRepoKey cfg.repoUrl)) then
        getSecret ("git_username_" ++ secretRepoKey cfg.repoUrl)
      else if truthy cfg.credentials.username then cfg.credentials.username else none) ∧
    (getAuthOptions cfg getSecret).password =
      (if truthy (getSecret ("git_password_" ++ secretRepoKey cfg.repoUrl)) then
        getSecret ("git_password_" ++ secretRepoKey cfg.repoUrl)
      else if truthy cfg.credentials.password then cfg.credentials.password else none) ∧
    (getAuthOptions cfg getSecret).token =
      (if truthy (getSecret ("git_token_" ++ secretRepoKey cfg.repoUrl)) then
        getSecret ("git_token_" ++ secretRepoKey cfg.repoUrl)
      else if truthy cfg.credentials.token then cfg.credentials.token else none) :=
  ⟨rfl, rfl, rfl⟩

/-- C10: the cache key depends only on the asset key and the six
serialized fields; two effective contexts agreeing on language,
workspace, system, buildHash and nonce — however much they differ in
extension fields such as `user` — produce identical cache keys, and a
resolve under the second context is served from the entry committed
under the first. -/
theorem claim_cacheKey_ignores_extensions (k : String) (c1 c2 : Ctx)
    (hl : c1.language = c2.language) (hw : c1.workspace = c2.workspace)
    (hs : c1.system = c2.system) (hb : c1.buildHash = c2.buildHash)
    (hn : c1.nonce = c2.nonce) :
    getCacheKey k c1 emptyPatch = getCacheKey k c2 emptyPatch ∧
    (∀ (α : Type) (cache : Cache α) (v : α) (d2 : Option α)
        (db2 fs2 : Except Unit (Option α)),
      getCached cache (getCacheKey k c1 emptyPatch) = none →
      (resolveAsset c2 (resolveAsset c1 cache k none emptyPatch (.ok (some v)) (.ok none)).2
          k d2 emptyPatch db2 fs2).1 = some v) := by
  have hkey : getCacheKey k c1 emptyPatch = getCacheKey k c2 emptyPatch := by
    unfold getCacheKey
    rw [setA3tContext_empty, setA3tContext_empty]
    unfold cacheKeyChars
    rw [hl, hw, hs, hb, hn]
  refine ⟨hkey, ?_⟩
  intro α cache v d2 db2 fs2 hmiss
  have h1 : (resolveAsset c1 cache k none emptyPatch (.ok (some v)) (.ok none)).2 =
      setCached cache (getCacheKey k c1 emptyPatch) true (some v) := by
    simp [resolveAsset, hmiss]
  rw [h1]
  simp [resolveAsset, ← hkey, getCached_setCached_self]

theorem claim_cacheKey_ignores_extensions_witness :
    getCacheKey "k" aliceCtx emptyPatch = getCacheKey "k" bobCtx emptyPatch ∧
    (resolveAsset bobCtx
        (resolveAsset aliceCtx ([] : Cache String) "k" none emptyPatch
          (.ok (some "v")) (.ok none)).2
        "k" none emptyPatch (.ok none) (.ok none)).1 = some "v" :=
  ⟨(claim_cacheKey_ignores_extensions "k" aliceCtx bobCtx rfl rfl rfl rfl rfl).1,
   (claim_cacheKey_ignores_extensions "k" aliceCtx bobCtx rfl rfl rfl rfl rfl).2
     String [] "v" none (.ok none) (.ok none) rfl⟩

end A3t
